import Mathlib

/-!
Shallow embedding of `checks.go` from the aeacus repository: the condition
data model, the argument-contract validator (`requireArgs`), the predicate
library (`CommandContains`, `CommandOutput`, `DirContains`, `FileContains`,
`FileEquals`, `PathExists`), the suffix-based modifier resolver, and the
dispatch engine (`runCheck`).

External collaborators (shell execution, file reads, `os.Stat`, the regexp
engine, `filepath.Walk`'s traversal order, the obfuscation transform and the
SHA-256 hasher) are modelled as fields of an `Env` record, exactly at their
Go signatures: a Go `(T, error)` pair becomes `T × Option Err`.
-/

set_option autoImplicit false

namespace Aeacus

/-- Models a Go `error` value together with the two classifications the
source consults: `os.IsNotExist` and `os.IsPermission`.  `errors.New(msg)`
is modelled by `Err.other msg`. -/
inductive Err where
  | notExist (msg : String)
  | permission (msg : String)
  | other (msg : String)
deriving DecidableEq

/-- Models `os.IsNotExist` applied to a non-nil error. -/
def Err.isNotExist : Err → Bool
  | .notExist _ => true
  | _ => false

/-- Models `os.IsPermission` applied to a non-nil error. -/
def Err.isPermission : Err → Bool
  | .permission _ => true
  | _ => false

/-- Models `os.IsPermission` applied to a possibly-nil error
(`os.IsPermission(nil)` is false). -/
def errIsPermission : Option Err → Bool
  | some e => e.isPermission
  | none => false

/-- The `cond` struct of `checks.go`, fields in source declaration order.
The Go zero value has every string field `""` and `regex` false. -/
structure cond where
  Hint : String := ""
  «Type» : String := ""
  Path : String := ""
  Cmd : String := ""
  User : String := ""
  Group : String := ""
  Name : String := ""
  Key : String := ""
  Value : String := ""
  After : String := ""
  regex : Bool := false
deriving DecidableEq

/-- The external collaborators of `checks.go`, at their Go signatures. -/
structure Env where
  /-- `deobfuscateCond`: in-place reversible transform, may error. -/
  deobfuscate : cond → Except Err cond
  /-- `obfuscateCond`: the inverse transform (its error is discarded at the
  deferred call site in `runCheck`, so it is modelled as total). -/
  obfuscate : cond → cond
  /-- `shellCommandOutput(cmd) (string, error)`. -/
  shellCommandOutput : String → String × Option Err
  /-- `readFile(path) (string, error)`. -/
  readFile : String → String × Option Err
  /-- The error result of `os.Stat(path)` (`none` = stat succeeded). -/
  stat : String → Option Err
  /-- `regexp.Match(pattern, bytes) (bool, error)`. -/
  regexpMatch : String → String → Bool × Option Err
  /-- The sequence of `(path, info.IsDir())` arguments with which
  `filepath.Walk(root, walkFn)` invokes its callback, in walk order. -/
  walkEntries : String → List (String × Bool)
  /-- Hex-encoded SHA-256 digest of a string (`crypto/sha256` + `hex`). -/
  sha256hex : String → String

/-! ### String helpers mirroring the `strings` package

The source compares and slices `Type` by bytes; all condition-type names and
suffixes are ASCII, where byte indexing and character indexing agree, so the
helpers work on `List Char`. -/

/-- Does the second list start with the first? -/
def charsStartWith : List Char → List Char → Bool
  | [], _ => true
  | _ :: _, [] => false
  | a :: as, b :: bs => a == b && charsStartWith as bs

/-- Does the first list contain the second as a contiguous sublist? -/
def charsContain : List Char → List Char → Bool
  | [], sub => charsStartWith sub []
  | s@(_ :: t), sub => charsStartWith sub s || charsContain t sub

/-- `strings.Contains(s, sub)`. -/
def goContains (s sub : String) : Bool :=
  charsContain s.data sub.data

/-- The Go suffix test `t[len(t)-len(suf):] == suf` (well-defined here
because `runCheck` only applies it after its length guard). -/
def goEndsWith (t suf : String) : Bool :=
  charsStartWith suf.data.reverse t.data.reverse

/-- The Go slice `t[:len(t)-n]`. -/
def strDropRight (t : String) (n : Nat) : String :=
  ⟨t.data.take (t.data.length - n)⟩

/-- `strings.TrimSpace`: drop leading and trailing whitespace. -/
def trimSpace (s : String) : String :=
  ⟨((s.data.dropWhile Char.isWhitespace).reverse.dropWhile Char.isWhitespace).reverse⟩

/-- `strings.Split(s, "\n")` on the character list: split at every newline;
never returns the empty list. -/
def splitChars : List Char → List (List Char)
  | [] => [[]]
  | ch :: rest =>
    if ch = '\n' then [] :: splitChars rest
    else
      match splitChars rest with
      | [] => [[ch]]
      | h :: t => (ch :: h) :: t

/-- The lines of a file body, as produced by `strings.Split(content, "\n")`. -/
def linesOf (s : String) : List String :=
  (splitChars s.data).map String.mk

/-! ### Argument Contract Validator (`requireArgs`)

`requireArgs` only talks to the logging collaborator: `fail` (fatal) for a
missing required argument and `warn` for an unused one.  It is modelled as a
function returning both event lists, each event being the
`(condition type, field name)` pair the source message names.  The `regex`
field is skipped by name in the source loop; it is the one non-string field
of `cond`, so the field table below lists only the ten string fields and the
step function keeps the source's name guard. -/

/-- The reflected fields of `cond` as `(name, value)` pairs, in declaration
order, as `reflect.ValueOf(c)` enumerates them. -/
def condFieldList (c : cond) : List (String × String) :=
  [("Hint", c.Hint), ("Type", c.«Type»), ("Path", c.Path), ("Cmd", c.Cmd),
   ("User", c.User), ("Group", c.Group), ("Name", c.Name), ("Key", c.Key),
   ("Value", c.Value), ("After", c.After)]

/-- The fields `requireArgs` actually validates: every parameter slot except
`Type`, `Hint` and the internal `regex` flag. -/
def validatedFields (c : cond) : List (String × String) :=
  [("Path", c.Path), ("Cmd", c.Cmd), ("User", c.User), ("Group", c.Group),
   ("Name", c.Name), ("Key", c.Key), ("Value", c.Value), ("After", c.After)]

/-- The logging events `requireArgs` emits: `fails` are fatal
missing-required-argument failures, `warns` are unused-argument warnings,
each naming the condition type and the field. -/
structure ValidationResult where
  fails : List (String × String)
  warns : List (String × String)
deriving DecidableEq

/-- One iteration of the `requireArgs` field loop. -/
def requireArgsStep (t : String) (args : List String) (acc : ValidationResult)
    (field : String × String) : ValidationResult :=
  if field.1 == "Type" || field.1 == "regex" then acc
  else if field.1 == "Hint" then acc
  else if args.contains field.1 then
    if field.2 == "" then { acc with fails := acc.fails ++ [(t, field.1)] } else acc
  else if field.2 != "" then { acc with warns := acc.warns ++ [(t, field.1)] } else acc

/-- `cond.requireArgs(args...)`: skips validation entirely for internal
calls (empty `Type`), otherwise walks every reflected field. -/
def requireArgs (c : cond) (args : List String) : ValidationResult :=
  if c.«Type» == "" then ⟨[], []⟩
  else (condFieldList c).foldl (requireArgsStep c.«Type» args) ⟨[], []⟩

/-! ### Predicate Library

Each predicate mirrors one method of `cond`.  The `c.requireArgs(...)` call
at the top of each Go method only logs (or fatally halts the run); its
behaviour is modelled separately by `requireArgs` above, and the value each
method computes when the run continues is as defined here. -/

/-- `CommandContains` (required: Cmd, Value). -/
def CommandContains (env : Env) (c : cond) : Bool × Option Err :=
  let (out, err) := env.shellCommandOutput c.Cmd
  match err with
  | some e => (false, some e)
  | none =>
    if c.regex then
      let outTrim := trimSpace out
      env.regexpMatch c.Value outTrim
    else
      (goContains (trimSpace out) c.Value, none)

/-- `CommandOutput` (required: Cmd, Value): the equality comparison is
computed and returned together with the command's error, unconditionally. -/
def CommandOutput (env : Env) (c : cond) : Bool × Option Err :=
  let (out, err) := env.shellCommandOutput c.Cmd
  (trimSpace out == c.Value, err)

/-- `PathExists` (required: Path). -/
def PathExists (env : Env) (c : cond) : Bool × Option Err :=
  match env.stat c.Path with
  | some e => if e.isNotExist then (false, none) else (false, some e)
  | none => (true, none)

/-- `FileContains` (required: Path, Value): the per-line loop over the split
file content.  In regex mode a match error returns immediately; a found line
breaks out of the loop (at which point the live `err` is nil). -/
def fileContainsLines (env : Env) (value : String) (rx : Bool) :
    List String → Bool × Option Err
  | [] => (false, none)
  | line :: rest =>
    if rx then
      match env.regexpMatch value line with
      | (_, some e) => (false, some e)
      | (found, none) =>
        if found then (found, none) else fileContainsLines env value rx rest
    else
      if goContains line value then (true, none)
      else fileContainsLines env value rx rest

/-- `FileContains`: read the whole file, then scan its lines. -/
def FileContains (env : Env) (c : cond) : Bool × Option Err :=
  match env.readFile c.Path with
  | (_, some e) => (false, some e)
  | (fileContent, none) => fileContainsLines env c.Value c.regex (linesOf fileContent)

/-- `FileEquals` (required: Path, Value): SHA-256 digest comparison
(`hasher.Write` on an in-memory buffer never errors). -/
def FileEquals (env : Env) (c : cond) : Bool × Option Err :=
  match env.readFile c.Path with
  | (_, some e) => (false, some e)
  | (fileContent, none) => (env.sha256hex fileContent == c.Value, none)

/-- The `filepath.Walk` callback of `DirContains`, folded over the walk
entries: collect every non-directory path, aborting as soon as more than
10000 have been collected (the error aborts the walk itself). -/
def walkCollect (files : List String) : List (String × Bool) → Except Err (List String)
  | [] => .ok files
  | (path, isDir) :: rest =>
    let files' := if !isDir then files ++ [path] else files
    if files'.length > 10000 then
      .error (Err.other "attempted to index too many files in recursive search")
    else walkCollect files' rest

/-- The per-file search loop of `DirContains`: a permission error from
`FileContains` aborts with that error, a true result returns `(true, nil)`,
anything else moves on to the next file. -/
def dirContainsLoop (env : Env) (c : cond) : List String → Bool × Option Err
  | [] => (false, none)
  | file :: rest =>
    let (result, err) := FileContains env { c with Path := file }
    if errIsPermission err then (false, err)
    else if result then (result, none)
    else dirContainsLoop env c rest

/-- `DirContains` (required: Path, Value): existence gate via an internal
`PathExists` call on a fresh `cond` holding only the path (so with empty
`Type`, skipping validation), then the bounded walk, then the per-file
search. -/
def DirContains (env : Env) (c : cond) : Bool × Option Err :=
  let (result, err) := PathExists env { Path := c.Path }
  match err with
  | some e => (false, some e)
  | none =>
    if !result then (false, some (Err.other "path does not exist"))
    else
      match walkCollect [] (env.walkEntries c.Path) with
      | .error e => (false, some e)
      | .ok files => dirContainsLoop env c files

/-! ### Modifier Resolver and Dispatch Engine (`runCheck`) -/

/-- The outcome of the suffix grammar of `runCheck`: the method name to
dispatch to, the negation flag, and the regex flag. -/
structure Resolved where
  condFunc : String
  negation : Bool
  regex : Bool
deriving DecidableEq

/-- Lines 114-133 of `checks.go`: the length guard (`none` = fatal
"not long enough" failure), then the `"Not"` suffix test, then the
`"Regex"` suffix test — both performed on the full `Type` string. -/
def resolveModifiers (t : String) : Option Resolved :=
  if t.length ≤ "Regex".length then none
  else
    let r0 : Resolved := { condFunc := t, negation := false, regex := false }
    let r1 := if goEndsWith t "Not" then
        { r0 with negation := true, condFunc := strDropRight t "Not".length }
      else r0
    let r2 := if goEndsWith t "Regex" then
        { r1 with regex := true, condFunc := strDropRight t "Regex".length }
      else r1
    some r2

/-- `reflect.ValueOf(cond).MethodByName(condFunc).Call(...)`: the exported
predicate methods of `cond` in this file, by name.  Any other name makes the
reflective call panic; `handleReflectPanic` recovers, reports a
"check type does not exist" fatal failure, and `runCheck` falls through to
its zero return value — modelled by `none`. -/
def dispatch (env : Env) (c : cond) (condFunc : String) : Option (Bool × Option Err) :=
  if condFunc == "CommandContains" then some (CommandContains env c)
  else if condFunc == "CommandOutput" then some (CommandOutput env c)
  else if condFunc == "DirContains" then some (DirContains env c)
  else if condFunc == "FileContains" then some (FileContains env c)
  else if condFunc == "FileEquals" then some (FileEquals env c)
  else if condFunc == "PathExists" then some (PathExists env c)
  else none

/-- `runCheck`: one condition evaluation.  Go passes `cond` by value, so the
function works on a local copy; the pair returned here is the boolean
outcome together with the final state of that local copy after the deferred
`obfuscateCond(&cond)` has run (on the fatal deobfuscation path the defer is
not yet registered and the run halts, leaving the copy as it was).  The
local mutations in source order: deobfuscation, `cond.regex = false`, the
possible `cond.regex = true` from the `Regex` suffix, re-obfuscation. -/
def runCheck (env : Env) (c : cond) : Bool × cond :=
  match env.deobfuscate c with
  | .error _ => (false, c)
  | .ok c1 =>
    let c2 : cond := { c1 with regex := false }
    match resolveModifiers c2.«Type» with
    | none => (false, env.obfuscate c2)
    | some r =>
      let c3 : cond := { c2 with regex := r.regex }
      match dispatch env c3 r.condFunc with
      | none => (false, env.obfuscate c3)
      | some (result, err) =>
        (if r.negation then err.isNone && !result else err.isNone && result,
         env.obfuscate c3)

/-- `evaluate(cond) bool`, the observable entry point: the boolean outcome
of `runCheck`. -/
def evaluate (env : Env) (c : cond) : Bool :=
  (runCheck env c).1

/-- The number of non-directory entries a walk delivers: the files the
`DirContains` callback would collect, were there no cap. -/
def countNonDir (entries : List (String × Bool)) : Nat :=
  (entries.filter (fun p => !p.2)).length

/-- The non-directory paths of a walk, in walk order. -/
def nonDirPaths (entries : List (String × Bool)) : List String :=
  ((entries.filter (fun p => !p.2)).map Prod.fst)

/-- The field names the `requireArgs` loop skips. -/
def skipName (n : String) : Bool :=
  n == "Type" || n == "regex" || n == "Hint"

/-! ### Concrete collaborator instances and conditions used by the witnesses -/

/-- A benign environment: identity obfuscation, every stat succeeds, every
read and command returns an empty success. -/
def env0 : Env where
  deobfuscate := fun c => .ok c
  obfuscate := fun c => c
  shellCommandOutput := fun _ => ("", none)
  readFile := fun _ => ("", none)
  stat := fun _ => none
  regexpMatch := fun _ _ => (false, none)
  walkEntries := fun _ => []
  sha256hex := fun _ => ""

def condPE : cond := { «Type» := "PathExists", Path := "/etc" }

def condDir : cond := { «Type» := "DirContains", Path := "d", Value := "target" }

def condW8 : cond := { «Type» := "PathExists", Path := "/x", Value := "v" }

def condCC : cond := { «Type» := "CommandContains", Cmd := "ver", Value := "1.2" }

def condFC : cond := { «Type» := "FileContains", Path := "m.log", Value := "target" }

def condFCrx : cond :=
  { «Type» := "FileContainsRegex", Path := "m.log", Value := "ERROR", regex := true }

def envAbsent : Env := { env0 with stat := fun _ => some (Err.notExist "no such file") }

def envPermStat : Env := { env0 with stat := fun _ => some (Err.permission "denied") }

def envCmdErr : Env :=
  { env0 with shellCommandOutput := fun _ => (" v1.2.3 ", some (Err.other "exit status 1")) }

def envCmdOk : Env := { env0 with shellCommandOutput := fun _ => (" v1.2.3 ", none) }

/-- A regex collaborator that reports a plain-substring match and never
errors. -/
def envRegexSub : Env := { env0 with regexpMatch := fun v l => (goContains l v, none) }

def envFileHit : Env := { envRegexSub with readFile := fun _ => ("ERROR: disk full\nok", none) }

def envFileMiss : Env := { envRegexSub with readFile := fun _ => ("all good\nok", none) }

def envFileErr : Env := { env0 with readFile := fun _ => ("", some (Err.other "short read")) }

/-- A regex collaborator that always reports a malformed pattern. -/
def envBadRx : Env :=
  { env0 with
    readFile := fun _ => ("one line", none)
    regexpMatch := fun _ _ => (false, some (Err.other "missing closing bracket")) }

def envDirMany : Env := { env0 with walkEntries := fun _ => List.replicate 10001 ("f", false) }

def envDirHit : Env :=
  { env0 with
    walkEntries := fun _ => [("d", true), ("d/a", false), ("d/b", false)]
    readFile := fun p => if p == "d/b" then ("world target world", none) else ("hello", none) }

def envDirPerm : Env :=
  { env0 with
    walkEntries := fun _ => [("d", true), ("d/a", false)]
    readFile := fun _ => ("", some (Err.permission "denied")) }

def envDirSkip : Env :=
  { env0 with
    walkEntries := fun _ => [("d", true), ("d/a", false), ("d/b", false)]
    readFile := fun _ => ("", some (Err.other "read failure")) }

/-! ## Theorems -/

/-- C1 counterexample: the claim is false on the code.  Both suffix tests of
`runCheck` inspect the original `Type` string, so `"FileContainsNotRegex"`
does not resolve to base `"FileContains"` with negate and regex both set. -/
theorem resolveModifiers_suffixes_counterexample :
    resolveModifiers "FileContainsNotRegex" ≠
      some { condFunc := "FileContains", negation := true, regex := true } := by
  decide

/-- C1 amended: `"FileContainsNotRegex"` does not end in `"Not"`, so only the
`"Regex"` test fires: the condition resolves to method name
`"FileContainsNot"` with negate = false and regex = true. -/
theorem resolveModifiers_suffixes_amended :
    resolveModifiers "FileContainsNotRegex" =
      some { condFunc := "FileContainsNot", negation := false, regex := true } := by
  decide

/-- C3: `CommandOutput` always returns the equality comparison between the
whitespace-trimmed command output and the `Value` slot paired with the
command's execution error — the comparison is computed even when the command
errored, and both are returned. -/
theorem commandOutput_always_compares (env : Env) (c : cond) :
    CommandOutput env c =
      ((trimSpace (env.shellCommandOutput c.Cmd).1 == c.Value),
       (env.shellCommandOutput c.Cmd).2) ∧
    ((CommandOutput env c).1 = true ↔ trimSpace (env.shellCommandOutput c.Cmd).1 = c.Value) := by
  rcases h : env.shellCommandOutput c.Cmd with ⟨out, err⟩
  simp [CommandOutput, h]

/-- C5: `PathExists` reports a missing path as `(false, nil)`, a present path
as `(true, nil)`, and propagates every other stat error. -/
theorem pathExists_absence (env : Env) (c : cond) :
    (∀ e, env.stat c.Path = some e → e.isNotExist = true → PathExists env c = (false, none)) ∧
    (env.stat c.Path = none → PathExists env c = (true, none)) ∧
    (∀ e, env.stat c.Path = some e → e.isNotExist = false → PathExists env c = (false, some e)) := by
  refine ⟨fun e he hn => ?_, fun h => ?_, fun e he hn => ?_⟩ <;> simp [PathExists, *]

/-- C5 witness: absence, presence and a permission error, each at a concrete
environment. -/
theorem pathExists_absence_witness :
    PathExists envAbsent condPE = (false, none) ∧
    PathExists env0 condPE = (true, none) ∧
    PathExists envPermStat condPE = (false, some (Err.permission "denied")) :=
  ⟨(pathExists_absence envAbsent condPE).1 (Err.notExist "no such file") rfl rfl,
   (pathExists_absence env0 condPE).2.1 rfl,
   (pathExists_absence envPermStat condPE).2.2 (Err.permission "denied") rfl rfl⟩

/-- C6: `CommandContains` returns `(false, error)` immediately when the
command errors, with no comparison; otherwise it trims the output and checks
substring containment, or delegates to the regexp collaborator when the
regex flag is set. -/
theorem commandContains_error_gate (env : Env) (c : cond) :
    (∀ out e, env.shellCommandOutput c.Cmd = (out, some e) →
      CommandContains env c = (false, some e)) ∧
    (∀ out, env.shellCommandOutput c.Cmd = (out, none) → c.regex = false →
      CommandContains env c = (goContains (trimSpace out) c.Value, none)) ∧
    (∀ out, env.shellCommandOutput c.Cmd = (out, none) → c.regex = true →
      CommandContains env c = env.regexpMatch c.Value (trimSpace out)) := by
  refine ⟨fun out e h => ?_, fun out h hrx => ?_, fun out h hrx => ?_⟩ <;>
    simp [CommandContains, *]

/-- C6 witness: a failing command short-circuits; a succeeding command's
trimmed output `"v1.2.3"` contains `"1.2"`; in regex mode the collaborator's
answer is returned unchanged. -/
theorem commandContains_error_gate_witness :
    CommandContains envCmdErr condCC = (false, some (Err.other "exit status 1")) ∧
    CommandContains envCmdOk condCC = (goContains (trimSpace " v1.2.3 ") "1.2", none) ∧
    CommandContains { envCmdOk with regexpMatch := envRegexSub.regexpMatch }
        { condCC with regex := true } =
      envRegexSub.regexpMatch "1.2" (trimSpace " v1.2.3 ") :=
  ⟨(commandContains_error_gate envCmdErr condCC).1 " v1.2.3 " (Err.other "exit status 1") rfl,
   (commandContains_error_gate envCmdOk condCC).2.1 " v1.2.3 " rfl rfl,
   (commandContains_error_gate _ _).2.2 " v1.2.3 " rfl rfl⟩

/-- `strings.Split` never yields an empty list: every file body has at
least one line. -/
theorem splitChars_ne_nil (l : List Char) : splitChars l ≠ [] := by
  induction l with
  | nil => simp [splitChars]
  | cons ch rest ih =>
    rw [splitChars]
    split
    · simp
    · rcases h : splitChars rest with _ | ⟨hd, tl⟩
      · simp
      · simp [h]

theorem linesOf_ne_nil (s : String) : linesOf s ≠ [] := by
  simp [linesOf, splitChars_ne_nil]

/-- Without the regex flag, the line loop is substring search over the
lines, and the returned error is always nil. -/
theorem fileContainsLines_noRegex (env : Env) (v : String) (lines : List String) :
    fileContainsLines env v false lines = (lines.any (fun l => goContains l v), none) := by
  induction lines with
  | nil => simp [fileContainsLines]
  | cons line rest ih =>
    rw [fileContainsLines]
    by_cases h : goContains line v <;> simp [h, ih]

/-- With the regex flag, when the regexp collaborator never errors on the
pattern, the line loop is a match search over the lines with a nil error. -/
theorem fileContainsLines_regex_ok (env : Env) (v : String) (lines : List String)
    (h : ∀ l, (env.regexpMatch v l).2 = none) :
    fileContainsLines env v true lines =
      (lines.any (fun l => (env.regexpMatch v l).1), none) := by
  induction lines with
  | nil => simp [fileContainsLines]
  | cons line rest ih =>
    rw [fileContainsLines]
    rcases hm : env.regexpMatch v line with ⟨found, e⟩
    have he : e = none := by have := h line; rw [hm] at this; exact this
    subst he
    by_cases hf : found <;> simp [hm, hf, ih]

/-- C7: `FileContains` reads the full file, splits it into lines, and
returns whether some line carries the value — as a literal substring when
the regex flag is unset, or as a regexp match when it is set; a read error
or a malformed pattern propagates as an error with a false result. -/
theorem fileContains_lines (env : Env) (c : cond) :
    (∀ s e, env.readFile c.Path = (s, some e) → FileContains env c = (false, some e)) ∧
    (∀ s, env.readFile c.Path = (s, none) → c.regex = false →
      FileContains env c = ((linesOf s).any (fun l => goContains l c.Value), none)) ∧
    (∀ s, env.readFile c.Path = (s, none) → c.regex = true →
      (∀ l, (env.regexpMatch c.Value l).2 = none) →
      FileContains env c = ((linesOf s).any (fun l => (env.regexpMatch c.Value l).1), none)) ∧
    (∀ s e, env.readFile c.Path = (s, none) → c.regex = true →
      (∀ l, env.regexpMatch c.Value l = (false, some e)) →
      FileContains env c = (false, some e)) := by
  refine ⟨fun s e h => ?_, fun s h hrx => ?_, fun s h hrx hok => ?_, fun s e h hrx hbad => ?_⟩
  · simp [FileContains, h]
  · rw [FileContains, h, hrx]
    show fileContainsLines env c.Value false (linesOf s) = _
    rw [fileContainsLines_noRegex]
  · rw [FileContains, h, hrx]
    show fileContainsLines env c.Value true (linesOf s) = _
    rw [fileContainsLines_regex_ok env c.Value _ hok]
  · rcases hl : linesOf s with _ | ⟨line, rest⟩
    · exact absurd hl (linesOf_ne_nil s)
    · rw [FileContains, h, hrx]
      show fileContainsLines env c.Value true (linesOf s) = _
      rw [hl]
      simp [fileContainsLines, hbad line]

/-- C7 witness: in regex mode the pattern `"ERROR"` is found in a file whose
first line is `"ERROR: disk full"` and not in one without such a line; a
malformed pattern yields an error; a read error propagates; without the
regex flag the value is searched as a substring. -/
theorem fileContains_lines_witness :
    FileContains envFileHit condFCrx =
      ((linesOf "ERROR: disk full\nok").any
        (fun l => (envFileHit.regexpMatch "ERROR" l).1), none) ∧
    FileContains envFileMiss condFCrx =
      ((linesOf "all good\nok").any
        (fun l => (envFileMiss.regexpMatch "ERROR" l).1), none) ∧
    FileContains envBadRx condFCrx = (false, some (Err.other "missing closing bracket")) ∧
    FileContains envFileErr condFC = (false, some (Err.other "short read")) ∧
    FileContains envFileHit condFC =
      ((linesOf "ERROR: disk full\nok").any (fun l => goContains l "target"), none) :=
  ⟨(fileContains_lines envFileHit condFCrx).2.2.1 "ERROR: disk full\nok" rfl rfl
      (fun _ => rfl),
   (fileContains_lines envFileMiss condFCrx).2.2.1 "all good\nok" rfl rfl
      (fun _ => rfl),
   (fileContains_lines envBadRx condFCrx).2.2.2 "one line"
      (Err.other "missing closing bracket") rfl rfl (fun _ => rfl),
   (fileContains_lines envFileErr condFC).1 "" (Err.other "short read") rfl,
   (fileContains_lines envFileHit condFC).2.1 "ERROR: disk full\nok" rfl rfl⟩

/-- When at most 10000 files remain to be collected, the walk callback
completes and collects every non-directory path in walk order. -/
theorem walkCollect_ok (entries : List (String × Bool)) :
    ∀ files : List String, files.length + countNonDir entries ≤ 10000 →
      walkCollect files entries = .ok (files ++ nonDirPaths entries) := by
  induction entries with
  | nil => intro files h; simp [walkCollect, nonDirPaths]
  | cons pd rest ih =>
    intro files h
    obtain ⟨p, d⟩ := pd
    cases d with
    | true =>
      have hc : countNonDir ((p, true) :: rest) = countNonDir rest := by
        simp [countNonDir]
      rw [hc] at h
      rw [walkCollect]
      rw [if_neg (by simp; omega)]
      simp only [Bool.not_true, Bool.false_eq_true, if_false]
      rw [ih files h]
      simp [nonDirPaths]
    | false =>
      have hc : countNonDir ((p, false) :: rest) = countNonDir rest + 1 := by
        simp [countNonDir]
      rw [hc] at h
      rw [walkCollect]
      simp only [Bool.not_false, if_true]
      rw [if_neg (by simp; omega)]
      rw [ih (files ++ [p]) (by simp; omega)]
      simp [nonDirPaths]

/-- When more than 10000 files would be collected, the walk callback aborts
with the resource-guard error. -/
theorem walkCollect_cap (entries : List (String × Bool)) :
    ∀ files : List String, files.length ≤ 10000 →
      10000 < files.length + countNonDir entries →
      walkCollect files entries =
        .error (Err.other "attempted to index too many files in recursive search") := by
  induction entries with
  | nil => intro files h hlt; simp [countNonDir] at hlt; omega
  | cons pd rest ih =>
    intro files h hlt
    obtain ⟨p, d⟩ := pd
    cases d with
    | true =>
      have hc : countNonDir ((p, true) :: rest) = countNonDir rest := by
        simp [countNonDir]
      rw [hc] at hlt
      rw [walkCollect]
      rw [if_neg (by simp; omega)]
      simp only [Bool.not_true, Bool.false_eq_true, if_false]
      exact ih files h hlt
    | false =>
      have hc : countNonDir ((p, false) :: rest) = countNonDir rest + 1 := by
        simp [countNonDir]
      rw [hc] at hlt
      rw [walkCollect]
      simp only [Bool.not_false, if_true]
      by_cases hcap : 10000 < (files ++ [p]).length
      · rw [if_pos (by simpa using hcap)]
      · rw [if_neg (by simpa using hcap)]
        simp only [List.length_append, List.length_singleton] at hcap
        exact ih (files ++ [p]) (by simp; omega) (by simp; omega)

/-- Every error exit of the line loop carries a false result. -/
theorem fileContainsLines_err_false (env : Env) (v : String) (rx : Bool) :
    ∀ (lines : List String) (e : Err),
      (fileContainsLines env v rx lines).2 = some e →
      (fileContainsLines env v rx lines).1 = false := by
  intro lines
  induction lines with
  | nil => intro e h; exact Option.noConfusion h
  | cons line rest ih =>
    intro e h
    cases rx with
    | true =>
      rcases hm : env.regexpMatch v line with ⟨found, me⟩
      rw [fileContainsLines, if_pos rfl, hm] at h ⊢
      cases me with
      | some e2 => rfl
      | none =>
        cases found with
        | true => exact Option.noConfusion h
        | false => exact ih e h
    | false =>
      rw [fileContainsLines, if_neg (by simp)] at h ⊢
      by_cases hc : goContains line v = true
      · rw [if_pos hc] at h; exact Option.noConfusion h
      · rw [if_neg hc] at h ⊢; exact ih e h

/-- `FileContains` never reports a true result together with an error. -/
theorem fileContains_err_false (env : Env) (c : cond) (e : Err)
    (h : (FileContains env c).2 = some e) : (FileContains env c).1 = false := by
  rw [FileContains] at h ⊢
  rcases hr : env.readFile c.Path with ⟨s, re⟩
  rw [hr] at h
  cases re with
  | none => exact fileContainsLines_err_false env c.Value c.regex (linesOf s) e h
  | some e2 => rfl

/-- If every file in the list produces a nil error and some file produces a
true result, the per-file loop returns `(true, nil)`. -/
theorem dirContainsLoop_found (env : Env) (c : cond) (files : List String)
    (hok : ∀ f ∈ files, (FileContains env { c with Path := f }).2 = none)
    (hhit : ∃ f ∈ files, (FileContains env { c with Path := f }).1 = true) :
    dirContainsLoop env c files = (true, none) := by
  induction files with
  | nil => simp at hhit
  | cons f rest ih =>
    rw [dirContainsLoop]
    rcases hfc : FileContains env { c with Path := f } with ⟨result, err⟩
    have he : err = none := by
      have := hok f (by simp)
      rw [hfc] at this; exact this
    subst he
    simp only [errIsPermission, Bool.false_eq_true, if_false]
    cases result with
    | true => simp
    | false =>
      simp only [Bool.false_eq_true, if_false]
      refine ih (fun g hg => hok g (by simp [hg])) ?_
      rcases hhit with ⟨g, hg, htrue⟩
      rcases List.mem_cons.mp hg with rfl | hgr
      · rw [hfc] at htrue; simp at htrue
      · exact ⟨g, hgr, htrue⟩

/-- If every file in the list produces a non-permission error, the loop
silently skips all of them and ends with `(false, nil)`. -/
theorem dirContainsLoop_skip (env : Env) (c : cond) (files : List String)
    (herr : ∀ f ∈ files, ∃ e, (FileContains env { c with Path := f }).2 = some e ∧
      e.isPermission = false) :
    dirContainsLoop env c files = (false, none) := by
  induction files with
  | nil => rfl
  | cons f rest ih =>
    rw [dirContainsLoop]
    obtain ⟨e, he, hperm⟩ := herr f (by simp)
    have hfalse : (FileContains env { c with Path := f }).1 = false :=
      fileContains_err_false env _ e he
    rcases hfc : FileContains env { c with Path := f } with ⟨result, err⟩
    rw [hfc] at he hfalse
    simp only at he hfalse
    subst he; subst hfalse
    simp only [errIsPermission, hperm, Bool.false_eq_true, if_false]
    exact ih (fun g hg => herr g (by simp [hg]))

/-- A permission error from a file aborts the loop at that file, after
earlier files that neither matched nor permission-errored. -/
theorem dirContainsLoop_perm (env : Env) (c : cond) (f : String) (post : List String)
    (hperm : errIsPermission (FileContains env { c with Path := f }).2 = true) :
    ∀ pre : List String,
      (∀ g ∈ pre, (FileContains env { c with Path := g }).1 = false ∧
        errIsPermission (FileContains env { c with Path := g }).2 = false) →
      dirContainsLoop env c (pre ++ f :: post) =
        (false, (FileContains env { c with Path := f }).2) := by
  intro pre
  induction pre with
  | nil =>
    intro _
    rw [List.nil_append, dirContainsLoop]
    rcases hfc : FileContains env { c with Path := f } with ⟨result, err⟩
    rw [hfc] at hperm
    simp only at hperm
    simp [hperm]
  | cons g pre' ih =>
    intro hpre
    obtain ⟨hres, hnp⟩ := hpre g (by simp)
    rw [List.cons_append, dirContainsLoop]
    rcases hfc : FileContains env { c with Path := g } with ⟨result, err⟩
    rw [hfc] at hres hnp
    simp only at hres hnp
    subst hres
    simp only [hnp, Bool.false_eq_true, if_false]
    exact ih (fun g' hg' => hpre g' (by simp [hg']))

/-- C4: `DirContains` reports a missing path as an explicit error, aborts
with an error as soon as the walk would collect more than 10000 files, and
returns true on a walk of at most 10000 files of which exactly one is a
match (all per-file checks succeeding). -/
theorem dirContains_bounds (env : Env) (c : cond) :
    (∀ e, env.stat c.Path = some e → e.isNotExist = true →
      DirContains env c = (false, some (Err.other "path does not exist"))) ∧
    (env.stat c.Path = none → 10000 < countNonDir (env.walkEntries c.Path) →
      DirContains env c =
        (false, some (Err.other "attempted to index too many files in recursive search"))) ∧
    (env.stat c.Path = none → countNonDir (env.walkEntries c.Path) ≤ 10000 →
      (∀ f ∈ nonDirPaths (env.walkEntries c.Path),
        (FileContains env { c with Path := f }).2 = none) →
      ((nonDirPaths (env.walkEntries c.Path)).filter
        (fun f => (FileContains env { c with Path := f }).1)).length = 1 →
      DirContains env c = (true, none)) := by
  refine ⟨fun e he hn => ?_, fun hstat hbig => ?_, fun hstat hsmall hok hlen => ?_⟩
  · have hpe : PathExists env { Path := c.Path } = (false, none) := by
      simp [PathExists, he, hn]
    simp [DirContains, hpe]
  · have hpe : PathExists env { Path := c.Path } = (true, none) := by
      simp [PathExists, hstat]
    have hwalk := walkCollect_cap (env.walkEntries c.Path) [] (by simp) (by simpa)
    simp [DirContains, hpe, hwalk]
  · have hpe : PathExists env { Path := c.Path } = (true, none) := by
      simp [PathExists, hstat]
    have hwalk := walkCollect_ok (env.walkEntries c.Path) [] (by simpa)
    rw [List.nil_append] at hwalk
    have hne : (nonDirPaths (env.walkEntries c.Path)).filter
        (fun f => (FileContains env { c with Path := f }).1) ≠ [] := by
      intro hnil; rw [hnil] at hlen; simp at hlen
    obtain ⟨f, hf⟩ := List.exists_mem_of_ne_nil _ hne
    rw [List.mem_filter] at hf
    have hloop := dirContainsLoop_found env c (nonDirPaths (env.walkEntries c.Path))
      hok ⟨f, hf.1, hf.2⟩
    simp [DirContains, hpe, hwalk, hloop]

/-- A walk delivering `n` copies of one file entry has `n` files. -/
theorem countNonDir_replicate (n : Nat) (p : String) :
    countNonDir (List.replicate n (p, false)) = n := by
  simp [countNonDir, List.filter_replicate]

/-- C4 witness: an absent directory errors; a walk of 10001 files errors;
a three-entry walk (one directory, two files) with exactly one matching
file returns true. -/
theorem dirContains_bounds_witness :
    DirContains envAbsent condDir = (false, some (Err.other "path does not exist")) ∧
    DirContains envDirMany condDir =
      (false, some (Err.other "attempted to index too many files in recursive search")) ∧
    DirContains envDirHit condDir = (true, none) :=
  ⟨(dirContains_bounds envAbsent condDir).1 (Err.notExist "no such file") rfl rfl,
   (dirContains_bounds envDirMany condDir).2.1 rfl
     (by rw [show envDirMany.walkEntries condDir.Path = List.replicate 10001 ("f", false)
          from rfl, countNonDir_replicate]; omega),
   (dirContains_bounds envDirHit condDir).2.2 rfl (by decide) (by decide) (by decide)⟩

/-- C10: in the per-file search of `DirContains`, only a permission error
aborts and propagates; any other per-file error is silently discarded and
the search continues, so `DirContains` can return `(false, nil)` even when
every examined file produced an error. -/
theorem dirContains_error_skip (env : Env) (c : cond) (files pre post : List String)
    (f : String)
    (h0 : env.stat c.Path = none)
    (h1 : countNonDir (env.walkEntries c.Path) ≤ 10000)
    (h2 : nonDirPaths (env.walkEntries c.Path) = files) :
    (files = pre ++ f :: post →
      (∀ g ∈ pre, (FileContains env { c with Path := g }).1 = false ∧
        errIsPermission (FileContains env { c with Path := g }).2 = false) →
      errIsPermission (FileContains env { c with Path := f }).2 = true →
      DirContains env c = (false, (FileContains env { c with Path := f }).2)) ∧
    ((∀ g ∈ files, ∃ e, (FileContains env { c with Path := g }).2 = some e ∧
        e.isPermission = false) →
      DirContains env c = (false, none)) := by
  subst h2
  have hpe : PathExists env { Path := c.Path } = (true, none) := by
    simp [PathExists, h0]
  have hwalk := walkCollect_ok (env.walkEntries c.Path) [] (by simpa)
  rw [List.nil_append] at hwalk
  constructor
  · intro hsplit hpre hperm
    have hloop := dirContainsLoop_perm env c f post hperm pre hpre
    rw [← hsplit] at hloop
    simp [DirContains, hpe, hwalk, hloop]
  · intro herr
    have hloop := dirContainsLoop_skip env c (nonDirPaths (env.walkEntries c.Path)) herr
    simp [DirContains, hpe, hwalk, hloop]

/-- C10 witness: a permission error on the only file aborts with that
error; with every file failing with a plain read error the search returns
`(false, nil)`. -/
theorem dirContains_error_skip_witness :
    DirContains envDirPerm condDir = (false, some (Err.permission "denied")) ∧
    DirContains envDirSkip condDir = (false, none) :=
  ⟨(dirContains_error_skip envDirPerm condDir ["d/a"] [] [] "d/a" rfl (by decide)
      (by decide)).1 rfl (fun g hg => nomatch hg) rfl,
   (dirContains_error_skip envDirSkip condDir ["d/a", "d/b"] [] [] "unused" rfl (by decide)
      (by decide)).2 (fun g _ => ⟨Err.other "read failure", rfl, rfl⟩)⟩

/-- C2: once a condition deobfuscates, resolves and dispatches, the final
boolean outcome combines the predicate's `(result, error)` pair with the
negate flag: true iff the predicate produced no error and the result equals
the non-negated sense — an error forces false regardless of negation. -/
theorem runCheck_combines_outcome (env : Env) (c c1 : cond) (r : Resolved)
    (res : Bool) (err : Option Err)
    (h1 : env.deobfuscate c = .ok c1)
    (h2 : resolveModifiers c1.«Type» = some r)
    (h3 : dispatch env { c1 with regex := r.regex } r.condFunc = some (res, err)) :
    (runCheck env c).1 = (err.isNone && (if r.negation then !res else res)) ∧
    ((runCheck env c).1 = true ↔
      (err = none ∧ (if r.negation then res = false else res = true))) := by
  have key : (runCheck env c).1 =
      (if r.negation then err.isNone && !res else err.isNone && res) := by
    rw [runCheck, h1]
    simp only [h2, h3]
  constructor
  · rw [key]; cases r.negation <;> simp
  · rw [key]
    cases r.negation <;>
      simp [Bool.and_eq_true, Option.isNone_iff_eq_none, Bool.not_eq_true']

/-- C2 witness: a `PathExists` condition in a benign environment dispatches
to `(true, nil)` without negation, and the outcome is true. -/
theorem runCheck_combines_outcome_witness :
    ((runCheck env0 condPE).1 =
      ((none : Option Err).isNone && (if (false : Bool) then !true else true))) ∧
    ((runCheck env0 condPE).1 = true ↔
      ((none : Option Err) = none ∧ (if (false : Bool) then true = false else true = true))) :=
  runCheck_combines_outcome env0 condPE condPE
    { condFunc := "PathExists", negation := false, regex := false } true none
    rfl (by decide) (by decide)

/-- C9: the caller-visible condition is unchanged by evaluation.  `runCheck`
receives the condition by value; on every return path the deferred
re-obfuscation restores every parameter slot of the local copy, so the final
local value agrees with the original on everything but the derived internal
regex flag.  The hypotheses state the obfuscation collaborator's contract:
it is the inverse of deobfuscation and touches only the sensitive string
slots, not the internal regex flag. -/
theorem runCheck_restores_cond (env : Env) (c : cond)
    (hobf : ∀ d b, env.obfuscate { d with regex := b } = { env.obfuscate d with regex := b })
    (hinv : ∀ a d, env.deobfuscate a = .ok d → env.obfuscate d = a) :
    (runCheck env c).2 = { c with regex := (runCheck env c).2.regex } := by
  rcases hde : env.deobfuscate c with e | c1
  · rw [runCheck, hde]
  · have hc1 : env.obfuscate c1 = c := hinv c c1 hde
    rw [runCheck, hde]
    rcases hr : resolveModifiers c1.«Type» with _ | r
    · simp only [hr]
      rw [hobf c1 false, hc1]
    · simp only [hr]
      rcases hd : dispatch env { c1 with regex := r.regex } r.condFunc with _ | ⟨res, err⟩
      · simp only [hd]
        rw [hobf c1 r.regex, hc1]
      · simp only [hd]
        rw [hobf c1 r.regex, hc1]

/-- C9 witness: with the identity obfuscation pair, evaluation of a
concrete condition leaves the caller-visible value intact. -/
theorem runCheck_restores_cond_witness :
    (runCheck env0 condPE).2 = { condPE with regex := (runCheck env0 condPE).2.regex } :=
  runCheck_restores_cond env0 condPE (fun _ _ => rfl)
    (fun a d h => by injection h with h; subst h; rfl)

/-- Folding the `requireArgs` step over any field list appends one failure
per non-skipped required-but-empty field and one warning per non-skipped
unrequired-but-populated field, in field order. -/
theorem foldl_requireArgsStep (t : String) (args : List String)
    (fields : List (String × String)) :
    ∀ acc : ValidationResult,
      fields.foldl (requireArgsStep t args) acc =
        ⟨acc.fails ++ (fields.filter
            (fun p => !skipName p.1 && (args.contains p.1 && p.2 == ""))).map
            (fun p => (t, p.1)),
         acc.warns ++ (fields.filter
            (fun p => !skipName p.1 && (!args.contains p.1 && p.2 != ""))).map
            (fun p => (t, p.1))⟩ := by
  induction fields with
  | nil => intro acc; simp
  | cons fld rest ih =>
    intro acc
    rw [List.foldl_cons, ih]
    by_cases h1 : fld.1 == "Type" <;> by_cases h2 : fld.1 == "regex" <;>
      by_cases h3 : fld.1 == "Hint" <;> by_cases h4 : fld.1 ∈ args <;>
      by_cases h5 : fld.2 == "" <;>
      simp [requireArgsStep, skipName, h1, h2, h3, h4, h5, bne]

/-- Counting one tagged pair in the mapped field list counts the fields
with that name. -/
theorem count_map_pair (t n : String) (l : List (String × String)) :
    ((l.map (fun p => (t, p.1))).count (t, n)) = l.countP (fun p => p.1 == n) := by
  induction l with
  | nil => simp
  | cons p rest ih =>
    rw [List.map_cons, List.count_cons, List.countP_cons, ih]
    congr 1
    by_cases hb : p.1 = n
    · subst hb; simp
    · simp [hb]

/-- Filtering the full reflected field list through the skip guard is
filtering the validated fields. -/
theorem condFields_filter (c : cond) (q : String × String → Bool) :
    (condFieldList c).filter (fun p => !skipName p.1 && q p) =
      (validatedFields c).filter q := by
  simp [condFieldList, validatedFields, skipName, List.filter]

/-- C8: a condition with empty `Type` skips validation; otherwise the fatal
failures are exactly the required-but-empty slots and the warnings exactly
the unrequired-but-populated slots (excluding `Type`, `Hint` and the
internal regex flag), each warning emitted exactly once per slot. -/
theorem requireArgs_contract (c : cond) (args : List String) :
    (c.«Type» = "" → requireArgs c args = ⟨[], []⟩) ∧
    (c.«Type» ≠ "" →
      (requireArgs c args).fails =
        ((validatedFields c).filter (fun p => args.contains p.1 && p.2 == "")).map
          (fun p => (c.«Type», p.1)) ∧
      (requireArgs c args).warns =
        ((validatedFields c).filter (fun p => !args.contains p.1 && p.2 != "")).map
          (fun p => (c.«Type», p.1)) ∧
      (∀ p ∈ validatedFields c, args.contains p.1 = false → p.2 ≠ "" →
        (requireArgs c args).warns.count (c.«Type», p.1) = 1)) := by
  constructor
  · intro h; simp [requireArgs, h]
  · intro h
    have hra : requireArgs c args =
        ⟨((validatedFields c).filter (fun p => args.contains p.1 && p.2 == "")).map
            (fun p => (c.«Type», p.1)),
         ((validatedFields c).filter (fun p => !args.contains p.1 && p.2 != "")).map
            (fun p => (c.«Type», p.1))⟩ := by
      rw [requireArgs, if_neg (by simp [h]), foldl_requireArgsStep,
        condFields_filter c (fun p => args.contains p.1 && p.2 == ""),
        condFields_filter c (fun p => !args.contains p.1 && p.2 != "")]
      simp
    refine ⟨by rw [hra], by rw [hra], ?_⟩
    intro p hp hargs hne
    rw [hra]
    show (List.map _ (List.filter _ (validatedFields c))).count (c.«Type», p.1) = 1
    rw [count_map_pair, List.countP_filter]
    have hbne : (p.2 != "") = true := by simp [bne, hne]
    have hmem : p.1 ∉ args := by simpa using hargs
    simp only [validatedFields, List.mem_cons, List.not_mem_nil, or_false] at hp
    rcases hp with rfl | rfl | rfl | rfl | rfl | rfl | rfl | rfl <;>
      simp_all [validatedFields, List.countP_cons]

/-- C8 witness: an internal call (empty `Type`) skips validation; a
`PathExists` condition with `Path` required and populated and `Value`
unused and populated produces no failure and exactly one warning naming
`Value`. -/
theorem requireArgs_contract_witness :
    requireArgs { «Type» := "", Path := "/x" } ["Path"] = ⟨[], []⟩ ∧
    (requireArgs condW8 ["Path"]).fails = [] ∧
    (requireArgs condW8 ["Path"]).warns = [("PathExists", "Value")] ∧
    (requireArgs condW8 ["Path"]).warns.count ("PathExists", "Value") = 1 :=
  ⟨(requireArgs_contract { «Type» := "", Path := "/x" } ["Path"]).1 rfl,
   ((requireArgs_contract condW8 ["Path"]).2 (by decide)).1,
   ((requireArgs_contract condW8 ["Path"]).2 (by decide)).2.1,
   ((requireArgs_contract condW8 ["Path"]).2 (by decide)).2.2 ("Value", "v")
     (by decide) (by decide) (by decide)⟩

end Aeacus
